import Mathlib

/-!
# Verification of the VeriDebugger client core

This file embeds the two core subsystems of the VeriDebugger frontend:

* the Run Orchestration & Streaming Reconciler
  (`src/store/optimizationAgentStore.ts`): the `OptimizationRun` record,
  the WebSocket `onUpdate` handler that folds a `StreamStep` into the
  record, and the `stopOptimization` action;
* the Signal Timeline Reconstructor (`WaveformView.tsx`): the
  `currentValue` query over `{time, value}` events, the multi-bit value
  boxes, and the hex display of multi-bit tokens.

All definitions are transcribed from the TypeScript source.  JavaScript
idioms are modelled explicitly: `x || y` on a string is `if x = "" then y
else x` (a missing field and the empty string are both falsy), `x || y`
on a possibly-missing array keeps `y` only when the array is absent
(a present array, even `[]`, is truthy), and `Array.prototype.sort` with
comparator `(a, b) => a.time - b.time` is a stable sort by `time`,
modelled by insertion sort (extensionally equal to any stable sort).
-/

namespace VeriDebugger

/-! ## Run Orchestration & Streaming Reconciler -/

/-- `AgentStatus` from `optimizationAgentStore.ts`. -/
inductive AgentStatus where
  | idle
  | starting
  | running
  | completed
  | failed
  deriving DecidableEq, Repr

/-- `AgentMode` from `optimizationAgentStore.ts`. -/
inductive AgentMode where
  | optimize
  | testgen
  deriving DecidableEq, Repr

/-- `StreamStep` from `backendApi.ts`: one message delivered by the
WebSocket channel.  `code`/`reasoning` use `""` for a missing field
(missing and `""` are both JS-falsy and are treated identically by the
store); `lut_history := none` models a missing/null array, while
`some l` models a present array (JS-truthy even when empty). -/
structure StreamStep where
  iteration : Nat
  code : String
  lut_count : Option Nat
  lut_history : Option (List Nat)
  reasoning : String
  sim_passed : Bool
  error : Option String
  done : Bool
  deriving DecidableEq, Repr

/-- `OptimizationRun` from `optimizationAgentStore.ts`. -/
structure OptimizationRun where
  runId : String
  mode : AgentMode
  iteration : Nat
  status : AgentStatus
  code : String
  testbenchCode : String
  lutCount : Option Nat
  lutHistory : List Nat
  agentReasoning : String
  simPassed : Bool
  error : Option String
  done : Bool
  deriving DecidableEq, Repr

/-- JS truthiness of `step.error` (`step.error ? 'failed' : 'completed'`):
a string is truthy iff it is non-null and non-empty. -/
def errTruthy : Option String → Bool
  | none => false
  | some s => s != ""

/-- The body of the `onUpdate` callback in `startOptimization`
(`optimizationAgentStore.ts`, lines 312-327): the reconciliation of one
inbound `StreamStep` into the current `OptimizationRun`. -/
def applyStep (r : OptimizationRun) (step : StreamStep) : OptimizationRun :=
  { r with
    iteration := step.iteration
    status := if step.done then (if errTruthy step.error then .failed else .completed)
              else .running
    code := if step.code = "" then r.code else step.code
    lutCount := step.lut_count
    lutHistory := step.lut_history.getD r.lutHistory
    agentReasoning := if step.reasoning = "" then r.agentReasoning else step.reasoning
    simPassed := step.sim_passed
    error := step.error
    done := step.done }

/-- The initial run record built by `startOptimization` right after the
creation request succeeds (`optimizationAgentStore.ts`, lines 290-306). -/
def initialRun (runId designCode testbenchCode : String) : OptimizationRun :=
  { runId := runId
    mode := .optimize
    iteration := 0
    status := .running
    code := designCode
    testbenchCode := testbenchCode
    lutCount := none
    lutHistory := []
    agentReasoning := ""
    simPassed := false
    error := none
    done := false }

/-- The slice of the zustand store state relevant to the streaming
lifecycle.  `streamAttached` models `_stream ≠ null`. -/
structure StoreState where
  currentRun : Option OptimizationRun
  isStarting : Bool
  isConnected : Bool
  lastError : Option String
  streamAttached : Bool
  deriving DecidableEq, Repr

/-- The `onUpdate` callback acting on the store state: it applies the
step to `currentRun` when one exists and sets `isConnected := true`.
It inspects nothing else — in particular it never compares the
delivering channel against `_stream`. -/
def handleStreamUpdate (s : StoreState) (step : StreamStep) : StoreState :=
  { s with
    currentRun := s.currentRun.map (fun r => applyStep r step)
    isConnected := true }

/-- `stopOptimization` (`optimizationAgentStore.ts`, lines 443-449):
closes the stream and clears `_stream` and `isConnected`; `currentRun`
is left untouched. -/
def stopOptimization (s : StoreState) : StoreState :=
  { s with streamAttached := false, isConnected := false }

/-! ## Signal Timeline Reconstructor (`WaveformView.tsx`) -/

/-- One value-change event of a captured signal (`{time, value}`). -/
structure SignalEvent where
  time : Nat
  value : String
  deriving DecidableEq, Repr

/-- The sort key used by `[...values].sort((a, b) => a.time - b.time)`. -/
def byTime (a b : SignalEvent) : Prop := a.time ≤ b.time

instance : DecidableRel byTime := fun a b => Nat.decLe a.time b.time

instance : IsTotal SignalEvent byTime := ⟨fun a b => Nat.le_total a.time b.time⟩

instance : IsTrans SignalEvent byTime := ⟨fun _ _ _ => Nat.le_trans⟩

/-- `[...values].sort((a, b) => a.time - b.time)`: JS `Array.prototype.sort`
is stable (ES2019), and every stable sort by `time` computes the same
list; it is modelled by insertion sort. -/
def sortByTime (values : List SignalEvent) : List SignalEvent :=
  values.insertionSort byTime

/-- The scan loop of the `currentValue` memo in `WaveformSignal`
(`WaveformView.tsx`, lines 406-409):
`for (const v of sorted) { if (v.time > t) break; lastVal = v.value }`. -/
def valueScan : List SignalEvent → String → Nat → String
  | [], lastVal, _ => lastVal
  | v :: rest, lastVal, t => if t < v.time then lastVal else valueScan rest v.value t

/-- The `currentValue` memo of `WaveformSignal` (`WaveformView.tsx`,
lines 402-411): the value shown for the signal at query time `t`. -/
def currentValue (values : List SignalEvent) (t : Nat) : String :=
  if values = [] then "X"
  else
    valueScan (sortByTime values)
      (((sortByTime values).head?.map SignalEvent.value).getD "X") t

/-- Spec-side definition of `valueAt`, from the spec's words: the value
of the last event, in time-sorted order, whose `time` is `≤ t` (`none`
when no such event exists).  It is compared against the source-derived
`currentValue`. -/
def valueAtSpec (values : List SignalEvent) (t : Nat) : Option String :=
  (((sortByTime values).filter (fun e => decide (e.time ≤ t))).getLast?).map
    SignalEvent.value

/-- One rendered multi-bit value box (`(startTime, endTime, token)`). -/
structure ValueBox where
  startTime : Nat
  endTime : Nat
  token : String
  deriving DecidableEq, Repr

/-- The multi-bit rendering path of `WaveformSignal` (`WaveformView.tsx`,
lines 466-497): one box per event **in input order**, ending at the next
input event's time (`values[i + 1]?.time ?? maxTime`).  Note the source
does not sort `values` on this path. -/
def multiBitBoxes : List SignalEvent → Nat → List ValueBox
  | [], _ => []
  | v :: rest, maxTime =>
    { startTime := v.time
      endTime := ((rest.head?).map SignalEvent.time).getD maxTime
      token := v.value } :: multiBitBoxes rest maxTime

/-- The numeric value of an all-binary token (the spec's "token's
numeric value"). -/
def binTokenValue (s : String) : Nat :=
  s.toList.foldl (fun acc c => 2 * acc + (if c == '1' then 1 else 0)) 0

/-! ## Concrete runs and messages used by counterexamples and witnesses -/

/-- The run record right after a successful `startOptimization`. -/
def runA : OptimizationRun := initialRun "run-1" "module m; endmodule" "tb"

/-- A terminal success message (`done = true`, no error). -/
def stepTerminal : StreamStep :=
  { iteration := 1, code := "", lut_count := some 120, lut_history := some [120]
    reasoning := "finished", sim_passed := true, error := none, done := true }

/-- A terminal record: `runA` after the terminal message. -/
def runTerminal : OptimizationRun := applyStep runA stepTerminal

/-- A late non-terminal message arriving after the terminal one. -/
def stepLate : StreamStep :=
  { iteration := 2, code := "", lut_count := none, lut_history := none
    reasoning := "", sim_passed := false, error := none, done := false }

/-- A non-terminal message bearing iteration 5. -/
def stepIterFive : StreamStep :=
  { iteration := 5, code := "", lut_count := some 110, lut_history := some [120, 110]
    reasoning := "", sim_passed := false, error := none, done := false }

/-- A non-terminal message bearing iteration 3, delivered after
`stepIterFive`. -/
def stepIterThree : StreamStep :=
  { iteration := 3, code := "", lut_count := some 115, lut_history := some [120, 115]
    reasoning := "", sim_passed := false, error := none, done := false }

/-- A message carrying a two-entry result series. -/
def stepHistTwo : StreamStep :=
  { iteration := 1, code := "", lut_count := some 90, lut_history := some [100, 90]
    reasoning := "", sim_passed := false, error := none, done := false }

/-- A message carrying a one-entry result series that differs at index 0. -/
def stepHistOne : StreamStep :=
  { iteration := 2, code := "", lut_count := some 95, lut_history := some [95]
    reasoning := "", sim_passed := false, error := none, done := false }

/-- A non-terminal message that carries an error string. -/
def stepSoftError : StreamStep :=
  { iteration := 1, code := "", lut_count := none, lut_history := none
    reasoning := "", sim_passed := false, error := some "simulation mismatch", done := false }

/-- A terminal message that carries an error string. -/
def stepFatal : StreamStep :=
  { iteration := 3, code := "", lut_count := none, lut_history := none
    reasoning := "", sim_passed := false, error := some "compile failed", done := true }

/-! ## C1 — terminal lock -/

/-- C1 counterexample: the reconciliation step has no terminal check.
`runTerminal` is terminal (`done = true`), yet applying the later
message `stepLate` changes the record (its `done`, `status` and
`iteration` are recomputed from the message), refuting
`reconcile(r, m) = r`. -/
theorem applyStep_mutates_terminal_run :
    runTerminal.done = true ∧ applyStep runTerminal stepLate ≠ runTerminal := by
  decide

/-- C1 amended: there is no terminal lock — a message is reconciled
regardless of `r.done`; applying a non-terminal message to a terminal
record reopens it (`status` returns to `running`, `done` to `false`),
so the record is mutated. -/
theorem applyStep_no_terminal_lock (r : OptimizationRun) (m : StreamStep)
    (hr : r.done = true) (hm : m.done = false) :
    (applyStep r m).status = AgentStatus.running ∧
      (applyStep r m).done = false ∧ applyStep r m ≠ r := by
  refine ⟨by simp [applyStep, hm], by simp [applyStep, hm], fun heq => ?_⟩
  have hdone := congrArg OptimizationRun.done heq
  simp [applyStep, hm, hr] at hdone

/-- Witness for C1's amended theorem at the terminal record
`runTerminal` and the late message `stepLate`. -/
theorem applyStep_no_terminal_lock_witness :
    runTerminal.done = true ∧ stepLate.done = false ∧
      ((applyStep runTerminal stepLate).status = AgentStatus.running ∧
        (applyStep runTerminal stepLate).done = false ∧
        applyStep runTerminal stepLate ≠ runTerminal) :=
  ⟨by decide, by decide,
    applyStep_no_terminal_lock runTerminal stepLate (by decide) (by decide)⟩

/-! ## C2 — monotonic iteration -/

/-- C2 counterexample: the handler assigns `iteration := step.iteration`
directly, so the sequence `stepIterFive, stepIterThree` applied to a
fresh run makes the recorded iteration drop from 5 to 3. -/
theorem iteration_can_decrease :
    (applyStep runA stepIterFive).iteration = 5 ∧
      (applyStep (applyStep runA stepIterFive) stepIterThree).iteration = 3 ∧
      (applyStep (applyStep runA stepIterFive) stepIterThree).iteration <
        (applyStep runA stepIterFive).iteration := by
  decide

/-- C2 amended: `iteration` is last-write-wins, not `max`: after any
sequence of messages ending in `m`, the recorded iteration is exactly
`m.iteration` — a message bearing a lower iteration lowers it. -/
theorem iteration_last_write_wins (r : OptimizationRun) (ms : List StreamStep)
    (m : StreamStep) :
    (List.foldl applyStep r (ms ++ [m])).iteration = m.iteration := by
  rw [List.foldl_append]
  rfl

/-! ## C3 — append-only series -/

/-- C3 counterexample: the handler assigns
`lutHistory := step.lut_history || previous`, a wholesale replacement.
Applying `stepHistOne` after `stepHistTwo` shrinks the series from
`[100, 90]` to `[95]`: the length decreases and index 0 is rewritten. -/
theorem lutHistory_not_append_only :
    (applyStep runA stepHistTwo).lutHistory = [100, 90] ∧
      (applyStep (applyStep runA stepHistTwo) stepHistOne).lutHistory = [95] ∧
      (applyStep (applyStep runA stepHistTwo) stepHistOne).lutHistory.length <
        (applyStep runA stepHistTwo).lutHistory.length := by
  decide

/-- C3 amended: the series is replaced wholesale, not appended to:
after any sequence of messages, `lutHistory` equals the `lut_history`
carried by the last message that carried one (and the prior series only
survives messages whose `lut_history` is absent). -/
theorem lutHistory_replaced_wholesale (r : OptimizationRun) (ms : List StreamStep) :
    (List.foldl applyStep r ms).lutHistory =
      ((ms.filterMap StreamStep.lut_history).getLast?).getD r.lutHistory := by
  induction ms generalizing r with
  | nil => rfl
  | cons m rest ih =>
    rw [List.foldl_cons, ih]
    cases h : m.lut_history with
    | none => simp [List.filterMap_cons, h, applyStep]
    | some l =>
      have happ : (applyStep r m).lutHistory = l := by simp [applyStep, h]
      rw [happ, List.filterMap_cons, h]
      cases hr : rest.filterMap StreamStep.lut_history with
      | nil => simp [hr]
      | cons x xs =>
        obtain ⟨y, hy⟩ : ∃ y, (x :: xs).getLast? = some y :=
          Option.isSome_iff_exists.mp (List.getLast?_isSome.mpr (by simp))
        simp [hr, hy]

/-! ## C5 — error implies failed -/

/-- C5 counterexample: a non-terminal message carrying an error leaves
the record with `error` set and `status = running` — the handler only
maps an error to `failed` when the same message also has `done = true`. -/
theorem error_set_while_running :
    (applyStep runA stepSoftError).error = some "simulation mismatch" ∧
      (applyStep runA stepSoftError).status = AgentStatus.running := by
  decide

/-- C5 amended: on every record reachable from an initial run, if the
record is terminal (`done = true`) and `error` holds a non-empty string,
then `status = failed`; the implication does not hold for non-terminal
records (see the counterexample). -/
theorem terminal_error_implies_failed (a b c : String) (ms : List StreamStep)
    (hdone : (List.foldl applyStep (initialRun a b c) ms).done = true)
    (s : String)
    (herr : (List.foldl applyStep (initialRun a b c) ms).error = some s)
    (hs : s ≠ "") :
    (List.foldl applyStep (initialRun a b c) ms).status = AgentStatus.failed := by
  rcases List.eq_nil_or_concat ms with rfl | ⟨l, m, rfl⟩
  · simp [initialRun] at hdone
  · rw [List.concat_eq_append, List.foldl_append, List.foldl_cons, List.foldl_nil] at *
    have hm : m.done = true := by simpa [applyStep] using hdone
    have he : m.error = some s := by simpa [applyStep] using herr
    simp [applyStep, hm, he, errTruthy, hs]

/-- Witness for C5's amended theorem: one terminal error message makes
the reachable record `failed`. -/
theorem terminal_error_implies_failed_witness :
    (List.foldl applyStep (initialRun "run-1" "d" "t") [stepFatal]).done = true ∧
      (List.foldl applyStep (initialRun "run-1" "d" "t") [stepFatal]).error =
        some "compile failed" ∧
      "compile failed" ≠ "" ∧
      (List.foldl applyStep (initialRun "run-1" "d" "t") [stepFatal]).status =
        AgentStatus.failed :=
  ⟨by decide, by decide, by decide,
    terminal_error_implies_failed "run-1" "d" "t" [stepFatal] (by decide)
      "compile failed" (by decide) (by decide)⟩

/-! ## C4 — channel isolation after detach -/

/-- The store right after `startOptimization` succeeded for `runA`. -/
def storeAfterStart : StoreState :=
  { currentRun := some runA, isStarting := false, isConnected := true
    lastError := none, streamAttached := true }

/-- The store after the first streamed message arrived. -/
def storeLive : StoreState := handleStreamUpdate storeAfterStart stepIterFive

/-- A straggler message from the channel closed by `stopOptimization`. -/
def stepStraggler : StreamStep :=
  { iteration := 7, code := "", lut_count := some 105, lut_history := some [120, 110, 105]
    reasoning := "straggler", sim_passed := false, error := none, done := false }

/-- C4 counterexample: after `stopOptimization`, a late message
delivered by the just-closed channel still mutates the Run Record (and
even flips `isConnected` back to `true`) — the `onUpdate` closure never
compares the delivering channel against the current `_stream`. -/
theorem late_message_mutates_after_stop :
    (handleStreamUpdate (stopOptimization storeLive) stepStraggler).currentRun ≠
        (stopOptimization storeLive).currentRun ∧
      (handleStreamUpdate (stopOptimization storeLive) stepStraggler).isConnected = true := by
  decide

/-- C4 amended: `stopOptimization` only clears the stored stream
reference and the connected flag; the message handler performs no
channel-identity check, so a late message from the closed channel is
reconciled into the Run Record exactly like a live one and sets
`isConnected` back to `true`. -/
theorem handleStreamUpdate_ignores_stop (s : StoreState) (r : OptimizationRun)
    (m : StreamStep) (h : s.currentRun = some r) :
    (handleStreamUpdate (stopOptimization s) m).currentRun = some (applyStep r m) ∧
      (handleStreamUpdate (stopOptimization s) m).isConnected = true := by
  constructor
  · simp [handleStreamUpdate, stopOptimization, h]
  · rfl

/-- Witness for C4's amended theorem: the straggler is applied to the
record of the stopped store. -/
theorem handleStreamUpdate_ignores_stop_witness :
    storeLive.currentRun = some (applyStep runA stepIterFive) ∧
      ((handleStreamUpdate (stopOptimization storeLive) stepStraggler).currentRun =
          some (applyStep (applyStep runA stepIterFive) stepStraggler) ∧
        (handleStreamUpdate (stopOptimization storeLive) stepStraggler).isConnected = true) :=
  ⟨rfl, handleStreamUpdate_ignores_stop storeLive (applyStep runA stepIterFive)
    stepStraggler rfl⟩

/-! ## Sorted-scan lemmas for the timeline reconstructor -/

/-- The defensive sort produces a list that is pairwise ordered by
`time`. -/
theorem sortByTime_sorted (l : List SignalEvent) : (sortByTime l).Pairwise byTime :=
  List.sorted_insertionSort byTime l

/-- Membership is preserved by the defensive sort. -/
theorem mem_sortByTime {e : SignalEvent} {l : List SignalEvent} :
    e ∈ sortByTime l ↔ e ∈ l :=
  (List.perm_insertionSort byTime l).mem_iff

/-- On a time-sorted list, the scan loop returns the value of the last
event with `time ≤ t`, falling back to its accumulator when no event
qualifies. -/
theorem valueScan_sorted_eq (t : Nat) :
    ∀ (l : List SignalEvent) (lastVal : String), l.Pairwise byTime →
      valueScan l lastVal t =
        (((l.filter (fun e => decide (e.time ≤ t))).getLast?).map
          SignalEvent.value).getD lastVal := by
  intro l
  induction l with
  | nil => intro lastVal _; rfl
  | cons v rest ih =>
    intro lastVal hp
    have hv : ∀ b ∈ rest, byTime v b := fun b hb => List.rel_of_pairwise_cons hp hb
    have hrest : rest.Pairwise byTime := hp.of_cons
    by_cases hvt : t < v.time
    · have hfe : (v :: rest).filter (fun e => decide (e.time ≤ t)) = [] := by
        rw [List.filter_eq_nil_iff]
        intro a ha
        rcases List.mem_cons.mp ha with rfl | ha'
        · simpa using Nat.not_le.mpr hvt
        · simpa using Nat.not_le.mpr (Nat.lt_of_lt_of_le hvt (hv a ha'))
      rw [hfe]
      simp only [valueScan, if_pos hvt]
      rfl
    · have hle : v.time ≤ t := Nat.le_of_not_lt hvt
      have hfc : (v :: rest).filter (fun e => decide (e.time ≤ t)) =
          v :: rest.filter (fun e => decide (e.time ≤ t)) := by
        simp [List.filter_cons, hle]
      simp only [valueScan, if_neg hvt]
      rw [ih v.value hrest, hfc]
      cases hfr : rest.filter (fun e => decide (e.time ≤ t)) with
      | nil => simp
      | cons x xs =>
        obtain ⟨y, hy⟩ : ∃ y, (x :: xs).getLast? = some y :=
          Option.isSome_iff_exists.mp (List.getLast?_isSome.mpr (by simp))
        simp [hy]

/-! ## C6 — `valueAt` on covered times -/

/-- C6: whenever some event has `time ≤ t`, the displayed current value
equals the value of the last event, in time-sorted order, with
`time ≤ t` — the source-derived `currentValue` refines the spec-side
`valueAtSpec`. -/
theorem currentValue_eq_valueAtSpec (values : List SignalEvent) (t : Nat)
    (h : ∃ e ∈ values, e.time ≤ t) :
    some (currentValue values t) = valueAtSpec values t := by
  obtain ⟨e, he, het⟩ := h
  have hne : values ≠ [] := List.ne_nil_of_mem he
  have hmem : e ∈ sortByTime values := mem_sortByTime.mpr he
  have hfil : e ∈ (sortByTime values).filter (fun x => decide (x.time ≤ t)) :=
    List.mem_filter.mpr ⟨hmem, by simpa using het⟩
  obtain ⟨g, hg⟩ :
      ∃ g, ((sortByTime values).filter (fun x => decide (x.time ≤ t))).getLast? = some g :=
    Option.isSome_iff_exists.mp (List.getLast?_isSome.mpr (List.ne_nil_of_mem hfil))
  rw [currentValue, if_neg hne, valueScan_sorted_eq t _ _ (sortByTime_sorted values),
    valueAtSpec, hg]
  rfl

/-- The single-bit example from the spec's round-trip property. -/
def exEvents : List SignalEvent := [⟨0, "0"⟩, ⟨10, "1"⟩, ⟨20, "0"⟩]

/-- Witness for C6 at the spec's round-trip example (`maxTime = 30`):
the theorem applies at `t = 5`, and the concrete queries evaluate to
`valueAt(5)=0`, `valueAt(10)=1`, `valueAt(25)=0`, `valueAt(30)=0`. -/
theorem currentValue_eq_valueAtSpec_witness :
    (∃ e ∈ exEvents, e.time ≤ 5) ∧
      some (currentValue exEvents 5) = valueAtSpec exEvents 5 ∧
      currentValue exEvents 5 = "0" ∧ currentValue exEvents 10 = "1" ∧
      currentValue exEvents 25 = "0" ∧ currentValue exEvents 30 = "0" :=
  ⟨by decide, currentValue_eq_valueAtSpec exEvents 5 (by decide),
    by decide, by decide, by decide, by decide⟩

/-! ## C7 — the `unknown` sentinel before the first event -/

/-- C7 counterexample: on a non-empty series, a query time preceding
the first event does **not** return the `'X'` sentinel — the scan's
accumulator is initialised with the first sorted event's value, which is
returned unchanged when the loop breaks immediately. -/
theorem before_first_event_not_unknown :
    currentValue [⟨10, "1"⟩] 5 = "1" ∧ currentValue [⟨10, "1"⟩] 5 ≠ "X" := by
  decide

/-- C7 amended: when every event lies strictly after `t` (including the
vacuous empty-series case), the query returns the first time-sorted
event's value, with `'X'` only for the empty series; the query is a
total function, so it never throws. -/
theorem before_first_event_value (values : List SignalEvent) (t : Nat)
    (h : ∀ e ∈ values, t < e.time) :
    currentValue values t =
      (((sortByTime values).head?.map SignalEvent.value).getD "X") := by
  by_cases hne : values = []
  · subst hne; rfl
  · have hfe : (sortByTime values).filter (fun e => decide (e.time ≤ t)) = [] := by
      rw [List.filter_eq_nil_iff]
      intro a ha
      simpa using Nat.not_le.mpr (h a (mem_sortByTime.mp ha))
    rw [currentValue, if_neg hne, valueScan_sorted_eq t _ _ (sortByTime_sorted values), hfe]
    rfl

/-- Witness for C7's amended theorem: before the sole event at time 10
the reported value is that event's value `"1"`, and the empty series
yields `"X"`. -/
theorem before_first_event_value_witness :
    (∀ e ∈ [(⟨10, "1"⟩ : SignalEvent)], 5 < e.time) ∧
      currentValue [⟨10, "1"⟩] 5 =
        (((sortByTime [⟨10, "1"⟩]).head?.map SignalEvent.value).getD "X") ∧
      currentValue [⟨10, "1"⟩] 5 = "1" ∧
      currentValue ([] : List SignalEvent) 5 = "X" :=
  ⟨by decide, before_first_event_value [⟨10, "1"⟩] 5 (by decide), by decide, by decide⟩

/-! ## C8 — multi-bit boxing -/

/-- Each box keeps its event's start time and token, one box per event
in input order. -/
theorem multiBitBoxes_map_start_token :
    ∀ (values : List SignalEvent) (maxTime : Nat),
      (multiBitBoxes values maxTime).map (fun b => (b.startTime, b.token)) =
        values.map (fun e => (e.time, e.value))
  | [], _ => rfl
  | v :: rest, maxTime => by
    simp only [multiBitBoxes, List.map_cons]
    exact congrArg _ (multiBitBoxes_map_start_token rest maxTime)

/-- Consecutive boxes are adjacent: each ends where the next starts. -/
theorem multiBitBoxes_chain :
    ∀ (values : List SignalEvent) (maxTime : Nat),
      List.Chain' (fun a b : ValueBox => a.endTime = b.startTime)
        (multiBitBoxes values maxTime)
  | [], _ => List.chain'_nil
  | [_], _ => List.chain'_singleton _
  | v :: w :: rest, maxTime => by
    refine List.chain'_cons'.mpr ⟨?_, multiBitBoxes_chain (w :: rest) maxTime⟩
    intro y hy
    have hhead : (multiBitBoxes (w :: rest) maxTime).head? =
        some ⟨w.time, ((rest.head?).map SignalEvent.time).getD maxTime, w.value⟩ := rfl
    rw [hhead, Option.mem_some_iff] at hy
    subst hy
    rfl

/-- On a time-sorted input whose events all lie within `maxTime`, every
box is a well-formed interval (`startTime ≤ endTime`). -/
theorem multiBitBoxes_start_le_end :
    ∀ (values : List SignalEvent) (maxTime : Nat),
      List.Chain' byTime values → (∀ e ∈ values, e.time ≤ maxTime) →
      ∀ b ∈ multiBitBoxes values maxTime, b.startTime ≤ b.endTime
  | [], _, _, _ => by simp [multiBitBoxes]
  | [v], maxTime, _, hmax => by
    intro b hb
    have hb' : b ∈ [(⟨v.time, maxTime, v.value⟩ : ValueBox)] := hb
    rw [List.mem_singleton] at hb'
    subst hb'
    exact hmax v (List.mem_singleton.mpr rfl)
  | v :: w :: rest, maxTime, hchain, hmax => by
    intro b hb
    have hb' : b ∈ (⟨v.time, w.time, v.value⟩ : ValueBox) ::
        multiBitBoxes (w :: rest) maxTime := hb
    rcases List.mem_cons.mp hb' with rfl | htail
    · exact (List.chain'_cons.mp hchain).1
    · exact multiBitBoxes_start_le_end (w :: rest) maxTime
        (List.chain'_cons.mp hchain).2
        (fun e he => hmax e (List.mem_cons_of_mem v he)) b htail

/-- The last box of a non-empty series ends exactly at `maxTime`. -/
theorem multiBitBoxes_last_end :
    ∀ (values : List SignalEvent) (maxTime : Nat), values ≠ [] →
      (multiBitBoxes values maxTime).getLast?.map ValueBox.endTime = some maxTime
  | [], _, h => absurd rfl h
  | [_], _, _ => rfl
  | v :: w :: rest, maxTime, _ => by
    have ih := multiBitBoxes_last_end (w :: rest) maxTime (by simp)
    have hcons : multiBitBoxes (v :: w :: rest) maxTime =
        (⟨v.time, w.time, v.value⟩ : ValueBox) ::
          (⟨w.time, ((rest.head?).map SignalEvent.time).getD maxTime, w.value⟩ : ValueBox) ::
          multiBitBoxes rest maxTime := rfl
    have hcons2 : multiBitBoxes (w :: rest) maxTime =
        (⟨w.time, ((rest.head?).map SignalEvent.time).getD maxTime, w.value⟩ : ValueBox) ::
          multiBitBoxes rest maxTime := rfl
    rw [hcons, List.getLast?_cons_cons, ← hcons2, ih]

/-- On a time-sorted input, every query time between the first event
and `maxTime` is covered by some box. -/
theorem multiBitBoxes_cover :
    ∀ (values : List SignalEvent) (maxTime t : Nat) (e0 : SignalEvent),
      List.Chain' byTime values → values.head? = some e0 →
      e0.time ≤ t → t ≤ maxTime →
      ∃ b ∈ multiBitBoxes values maxTime, b.startTime ≤ t ∧ t ≤ b.endTime
  | [], _, _, _, _, hh, _, _ => by simp at hh
  | [v], maxTime, t, e0, _, hh, h1, h2 => by
    have he : v = e0 := by simpa using hh
    subst he
    exact ⟨⟨v.time, maxTime, v.value⟩, List.mem_singleton.mpr rfl, h1, h2⟩
  | v :: w :: rest, maxTime, t, e0, hchain, hh, h1, h2 => by
    have he : v = e0 := by simpa using hh
    subst he
    have hcons : multiBitBoxes (v :: w :: rest) maxTime =
        (⟨v.time, w.time, v.value⟩ : ValueBox) ::
          multiBitBoxes (w :: rest) maxTime := rfl
    by_cases hw : t ≤ w.time
    · exact ⟨⟨v.time, w.time, v.value⟩, by rw [hcons]; exact List.mem_cons_self _ _, h1, hw⟩
    · have hwt : w.time ≤ t := Nat.le_of_not_le hw
      obtain ⟨b, hb, hbs, hbe⟩ := multiBitBoxes_cover (w :: rest) maxTime t w
        (List.chain'_cons.mp hchain).2 rfl hwt h2
      exact ⟨b, by rw [hcons]; exact List.mem_cons_of_mem _ hb, hbs, hbe⟩

/-- The unsorted multi-bit example: the same two events as the spec's
boxing example, delivered out of time order. -/
def unsortedEvents : List SignalEvent := [⟨5, "10"⟩, ⟨0, "01"⟩]

/-- C8 counterexample: the multi-bit rendering path does **not** sort
defensively — it walks `values` in input order, so the out-of-order
delivery of the spec's boxing example yields the malformed boxes
`[(5,0,"10"), (0,8,"01")]` (the first interval runs backwards) instead
of the claimed `[(0,5,"01"), (5,8,"10")]`. -/
theorem multiBitBoxes_no_defensive_sort :
    multiBitBoxes unsortedEvents 8 =
        [⟨5, 0, "10"⟩, ⟨0, 8, "01"⟩] ∧
      multiBitBoxes unsortedEvents 8 ≠
        [⟨0, 5, "01"⟩, ⟨5, 8, "10"⟩] ∧
      ∃ b ∈ multiBitBoxes unsortedEvents 8, b.endTime < b.startTime := by
  decide

/-- C8 amended: restricted to inputs already sorted ascending by time
(with all events within `maxTime`), the boxing is as claimed: one box
per event carrying its start time and token, consecutive boxes adjacent
(hence non-overlapping interiors), the last box ending at `maxTime`,
every box a well-formed interval, and every query time in
`[firstEventTime, maxTime]` covered by a box.  The source does not sort
this path, so unsorted input yields malformed boxes. -/
theorem multiBitBoxes_sorted_spec (values : List SignalEvent) (maxTime : Nat)
    (hchain : List.Chain' byTime values)
    (hmax : ∀ e ∈ values, e.time ≤ maxTime) :
    (multiBitBoxes values maxTime).map (fun b => (b.startTime, b.token)) =
        values.map (fun e => (e.time, e.value)) ∧
      List.Chain' (fun a b : ValueBox => a.endTime = b.startTime)
        (multiBitBoxes values maxTime) ∧
      (∀ b ∈ multiBitBoxes values maxTime, b.startTime ≤ b.endTime) ∧
      (values ≠ [] →
        (multiBitBoxes values maxTime).getLast?.map ValueBox.endTime = some maxTime) ∧
      (∀ t e0, values.head? = some e0 → e0.time ≤ t → t ≤ maxTime →
        ∃ b ∈ multiBitBoxes values maxTime, b.startTime ≤ t ∧ t ≤ b.endTime) :=
  ⟨multiBitBoxes_map_start_token values maxTime,
    multiBitBoxes_chain values maxTime,
    multiBitBoxes_start_le_end values maxTime hchain hmax,
    fun hne => multiBitBoxes_last_end values maxTime hne,
    fun t e0 hh h1 h2 => multiBitBoxes_cover values maxTime t e0 hchain hh h1 h2⟩

/-- The spec's boxing example in time order. -/
def sortedEvents : List SignalEvent := [⟨0, "01"⟩, ⟨5, "10"⟩]

/-- Witness for C8's amended theorem at the spec's boxing example:
`[(0,"01"),(5,"10")]` with `maxTime = 8` yields exactly
`[(0,5,"01"), (5,8,"10")]`. -/
theorem multiBitBoxes_sorted_spec_witness :
    List.Chain' byTime sortedEvents ∧ (∀ e ∈ sortedEvents, e.time ≤ 8) ∧
      ((multiBitBoxes sortedEvents 8).map (fun b => (b.startTime, b.token)) =
          sortedEvents.map (fun e => (e.time, e.value)) ∧
        List.Chain' (fun a b : ValueBox => a.endTime = b.startTime)
          (multiBitBoxes sortedEvents 8) ∧
        (∀ b ∈ multiBitBoxes sortedEvents 8, b.startTime ≤ b.endTime) ∧
        (sortedEvents ≠ [] →
          (multiBitBoxes sortedEvents 8).getLast?.map ValueBox.endTime = some 8) ∧
        (∀ t e0, sortedEvents.head? = some e0 → e0.time ≤ t → t ≤ 8 →
          ∃ b ∈ multiBitBoxes sortedEvents 8, b.startTime ≤ t ∧ t ≤ b.endTime)) ∧
      multiBitBoxes sortedEvents 8 = [⟨0, 5, "01"⟩, ⟨5, 8, "10"⟩] :=
  ⟨List.chain'_cons.mpr ⟨by decide, List.chain'_singleton _⟩, by decide,
    multiBitBoxes_sorted_spec sortedEvents 8
      (List.chain'_cons.mpr ⟨by decide, List.chain'_singleton _⟩) (by decide),
    by decide⟩

/-! ## C9 — hex display of multi-bit tokens -/

end VeriDebugger
